import Mathlib

/-!
Shallow embedding of the averaging pipeline in average.py: directory model,
CSV aggregation (glob, exclusion of the aggregate output, per-file parsing
with the early-return quirk, header/cell stripping, concatenation,
group-by-mean rounded to 6 decimals) and the viewer, together with theorems
settling the specification claims.
-/

namespace Avg

/-- Value held by one cell of a parsed CSV table: a string, a rational
number (idealising the float values pandas parses), or a missing value
(NaN). -/
inductive Cell where
  | str : String → Cell
  | num : ℚ → Cell
  | nan : Cell
deriving DecidableEq

/-- A parsed table, mirroring a pandas DataFrame: column names in order and
rows of cells aligned positionally with the columns. -/
structure DF where
  cols : List String
  rows : List (List Cell)
deriving DecidableEq

/-- What attempting to parse a file as CSV yields: a failure (the read
raises) or a parsed table. -/
inductive FileContent where
  | unparsable : FileContent
  | table : DF → FileContent
deriving DecidableEq

/-- A file of the target directory: its name and what parsing it yields. -/
structure FSFile where
  name : String
  content : FileContent
deriving DecidableEq

/-- The target directory: its base name and its files in the enumeration
order the glob returns them. -/
structure Dir where
  name : String
  files : List FSFile
deriving DecidableEq

/-- Name of the frequency column required by the aggregation. -/
def requiredFreq : String := "Frequency(Hz)"

/-- Name of the magnitude column required by the aggregation. -/
def requiredMag : String := "Magnitude(dB)"

/-- Name of the aggregate output file: the directory base name with a csv
extension, as built in remove_final_csv and process_csv_files. -/
def finalCSVName (d : Dir) : String := d.name ++ ".csv"

/-- Character-level model of the glob pattern used on the directory: a file
name matches when it ends with the csv extension. -/
def endsWithCSV (s : String) : Bool := List.isSuffixOf ".csv".data s.data

/-- First index of a column name in a header list, if present. -/
def idxOf? (c : String) : List String → Option Nat
  | [] => none
  | x :: xs => if x = c then some 0 else (idxOf? c xs).map (· + 1)

/-- Value of a named column in a row, missing when the column is absent or
the row is too short. -/
def lookupCell (cols : List String) (c : String) (row : List Cell) : Cell :=
  match idxOf? c cols with
  | some i => row.getD i Cell.nan
  | none => Cell.nan

/-- Column of values of a table under a column name. -/
def colValues (df : DF) (c : String) : List Cell :=
  df.rows.map (lookupCell df.cols c)

/-- Strip leading and trailing whitespace characters from a character list,
modelling the strip method applied to headers and string cells. -/
def stripChars (l : List Char) : List Char :=
  ((l.dropWhile Char.isWhitespace).reverse.dropWhile Char.isWhitespace).reverse

/-- Strip leading and trailing whitespace from a string. -/
def pyStrip (s : String) : String := ⟨stripChars s.data⟩

/-- Cell cleaning of the aggregator: string values are stripped, any other
value is left untouched. -/
def cleanCell : Cell → Cell
  | .str s => .str (pyStrip s)
  | c => c

/-- Per-file normalisation of the aggregator: strip every column header and
every string cell. -/
def cleanDF (df : DF) : DF :=
  ⟨df.cols.map pyStrip, df.rows.map (List.map cleanCell)⟩

/-- Column names of the concatenation of several tables: the union of their
headers in order of first appearance, as pandas concat aligns columns. -/
def unionCols (dfs : List DF) : List String :=
  dfs.foldl (fun acc df => acc ++ df.cols.filter (fun c => decide (c ∉ acc))) []

/-- Re-index a row of one table against the combined header list, filling
missing columns with NaN. -/
def alignRow (cols : List String) (df : DF) (row : List Cell) : List Cell :=
  cols.map (fun c => lookupCell df.cols c row)

/-- Concatenation of several tables with ignore_index, aligning columns by
name and filling absent columns with NaN. -/
def concatDFs (dfs : List DF) : DF :=
  ⟨unionCols dfs, dfs.flatMap (fun df => df.rows.map (alignRow (unionCols dfs) df))⟩

/-- Total comparison on cells used for the sorted group keys: numbers by
numeric order, then strings lexicographically, then missing values. -/
def cellLE : Cell → Cell → Bool
  | .num a, .num b => decide (a ≤ b)
  | .num _, .str _ => true
  | .num _, .nan => true
  | .str _, .num _ => false
  | .str a, .str b => decide (a ≤ b)
  | .str _, .nan => true
  | .nan, .num _ => false
  | .nan, .str _ => false
  | .nan, .nan => true

/-- Propositional form of the cell comparison. -/
def cellLEP (a b : Cell) : Prop := cellLE a b = true

instance : DecidableRel cellLEP := fun a b =>
  inferInstanceAs (Decidable (cellLE a b = true))

/-- Round a rational to the nearest integer, ties to even, matching the
rounding used by round on a mean value. -/
def roundHalfEven (x : ℚ) : ℤ :=
  if x - ⌊x⌋ < 1 / 2 then ⌊x⌋
  else if 1 / 2 < x - ⌊x⌋ then ⌊x⌋ + 1
  else if ⌊x⌋ % 2 = 0 then ⌊x⌋ else ⌊x⌋ + 1

/-- Round a rational to 6 decimal places, as round(x, 6) does. -/
def roundTo6 (x : ℚ) : ℚ := (roundHalfEven (x * 1000000) : ℚ) / 1000000

/-- Numeric content of a cell, if any. -/
def cellNum? : Cell → Option ℚ
  | .num q => some q
  | _ => none

/-- Whether a cell holds a string value. -/
def isStrCell : Cell → Bool
  | .str _ => true
  | _ => false

/-- Aggregation applied to the magnitude cells of one frequency group,
modelling round(x.mean(), 6): the mean raises a TypeError on any string
value in the group, modelled as none; otherwise missing values are skipped
and the mean of the numeric values is rounded to 6 decimals, an all-missing
group aggregating to a missing value. -/
def meanAgg (cells : List Cell) : Option Cell :=
  if cells.any isStrCell then none
  else
    let nums := cells.filterMap cellNum?
    if nums.isEmpty then some Cell.nan
    else some (Cell.num (roundTo6 (nums.sum / (nums.length : ℚ))))

/-- Frequency and magnitude cell of every row of a table. -/
def pairsOf (df : DF) : List (Cell × Cell) :=
  df.rows.map (fun r =>
    (lookupCell df.cols requiredFreq r, lookupCell df.cols requiredMag r))

/-- Magnitude cells of the rows whose frequency cell equals the given key. -/
def groupMags (pairs : List (Cell × Cell)) (k : Cell) : List Cell :=
  (pairs.filter (fun p => decide (p.1 = k))).map Prod.snd

/-- Group keys of the group-by: the distinct non-missing frequency values,
sorted ascending as the group-by sorts keys by default. -/
def groupKeys (pairs : List (Cell × Cell)) : List Cell :=
  List.insertionSort cellLEP
    (((pairs.map Prod.fst).filter (fun c => decide (c ≠ Cell.nan))).dedup)

/-- Whether the aggregation succeeds on every group: no group whose rows
are actually aggregated may make the mean raise. -/
def aggOk (pairs : List (Cell × Cell)) : Bool :=
  (groupKeys pairs).all (fun k => (meanAgg (groupMags pairs k)).isSome)

/-- The grouped table built from the frequency and magnitude pairs, or none
when the aggregation raises on some group: one row per distinct frequency
key holding the aggregated magnitude. -/
def groupbyPairs (pairs : List (Cell × Cell)) : Option DF :=
  if aggOk pairs then
    some ⟨[requiredFreq, requiredMag],
      (groupKeys pairs).map (fun k => [k, (meanAgg (groupMags pairs k)).getD Cell.nan])⟩
  else none

/-- The group-by-mean of the combined table: group rows by the frequency
column and aggregate the magnitude column with the rounded mean, or none
when the aggregation raises. -/
def groupbyMean (df : DF) : Option DF := groupbyPairs (pairsOf df)

/-- Exceptions the aggregation can raise: no CSV file found (the explicit
ValueError), a required column missing at the group-by (the KeyError), or a
non-numeric magnitude value making the mean raise (the TypeError). -/
inductive PipelineError where
  | noCSVFiles : PipelineError
  | missingColumn : String → PipelineError
  | typeError : PipelineError
deriving DecidableEq

/-- The per-file read loop of process_csv_files: parsed files are cleaned
and accumulated; a parse failure is skipped, except that a failure while no
file has yet succeeded returns early with no result at all. -/
def readLoop : List FSFile → List DF → Option (List DF)
  | [], acc => some acc
  | f :: rest, acc =>
    match f.content with
    | .table df => readLoop rest (acc ++ [cleanDF df])
    | .unparsable => if acc.isEmpty then none else readLoop rest acc

/-- Candidate input files: the csv files of the directory with the expected
aggregate output name excluded. -/
def candidateFiles (d : Dir) : List FSFile :=
  (d.files.filter (fun f => endsWithCSV f.name)).filter
    (fun f => decide (f.name ≠ finalCSVName d))

/-- Tail of the aggregation after the read loop: an early return yields no
table, otherwise the concatenation is grouped when data and the required
columns are present. -/
def processRest : Option (List DF) → Except PipelineError (Option DF)
  | none => .ok none
  | some dfs =>
    if dfs.isEmpty then .ok none
    else if requiredFreq ∈ (concatDFs dfs).cols then
      if requiredMag ∈ (concatDFs dfs).cols then
        match groupbyMean (concatDFs dfs) with
        | some out => .ok (some out)
        | none => .error .typeError
      else .error (.missingColumn requiredMag)
    else .error (.missingColumn requiredFreq)

/-- The aggregation of process_csv_files: glob the csv files, fail when
none exists, exclude the aggregate output, run the read loop, and when data
remains group the concatenation by frequency; the result is the written
table when one is produced, nothing when the function returns without
writing, and an error when it raises. -/
def process_csv_files (d : Dir) : Except PipelineError (Option DF) :=
  if (d.files.filter (fun f => endsWithCSV f.name)).isEmpty then
    .error .noCSVFiles
  else processRest (readLoop (candidateFiles d) [])

/-- Outcome of the viewer on one file. -/
inductive ViewerResult where
  | readError : ViewerResult
  | missingColumns : ViewerResult
  | rendered : ViewerResult
deriving DecidableEq

/-- The viewer of show_gui: a read failure and a missing required column
are both reported and rendering is skipped, returning to the caller. -/
def show_gui : FileContent → ViewerResult
  | .unparsable => .readError
  | .table df =>
    if requiredFreq ∈ df.cols ∧ requiredMag ∈ df.cols then .rendered
    else .missingColumns

/-- State at the end of a run of main: the exit code, the directory files,
and the viewer outcome when the viewer was launched. -/
structure RunResult where
  exitCode : Nat
  finalFiles : List FSFile
  viewer : Option ViewerResult
deriving DecidableEq

/-- The stale-output removal of remove_final_csv: delete the aggregate
output file when present. -/
def remove_final_csv (d : Dir) : Dir :=
  ⟨d.name, d.files.filter (fun f => decide (f.name ≠ finalCSVName d))⟩

/-- Read-back model under which re-parsing the written file yields exactly
the written table. -/
def readBackId : DF → FileContent := fun df => .table df

/-- The whole run of main on a resolved directory: remove the stale output,
aggregate, and on success write the output file and launch the viewer on
its re-parsed content; errors are caught at top level with exit code 1. -/
def mainRun (d : Dir) (readBack : DF → FileContent) : RunResult :=
  match process_csv_files (remove_final_csv d) with
  | .error _ => ⟨1, (remove_final_csv d).files, none⟩
  | .ok none => ⟨0, (remove_final_csv d).files, none⟩
  | .ok (some df) =>
      ⟨0, (remove_final_csv d).files ++ [⟨finalCSVName d, readBack df⟩],
       some (show_gui (readBack df))⟩

/-- Cleaned tables of the files of a list that parse successfully. -/
def parsedTables (files : List FSFile) : List DF :=
  files.filterMap (fun f =>
    match f.content with
    | .table df => some (cleanDF df)
    | .unparsable => none)

/-- Cleaned tables of the candidate input files that parse successfully. -/
def parsedInputs (d : Dir) : List DF := parsedTables (candidateFiles d)

/-- Frequency and magnitude pairs of the combined table the aggregation
builds on a directory, empty when the read loop returns early. -/
def combinedPairs (d : Dir) : List (Cell × Cell) :=
  match readLoop (candidateFiles d) [] with
  | some dfs => pairsOf (concatDFs dfs)
  | none => []

/-- Magnitude written in an output table for a frequency key: the second
cell of the first row whose first cell is the key. -/
def outputMagFor (df : DF) (k : Cell) : Option Cell :=
  (df.rows.find? (fun r => decide (r.getD 0 Cell.nan = k))).map
    (fun r => r.getD 1 Cell.nan)

/-- Example input table: the first measurement file of the worked example of
the specification. -/
def aDF : DF :=
  ⟨[requiredFreq, requiredMag], [[.num 100, .num 3], [.num 200, .num 6]]⟩

/-- Example input table: the second measurement file of the worked example
of the specification. -/
def bDF : DF :=
  ⟨[requiredFreq, requiredMag],
   [[.num 100, .num (Rat.divInt 7 2)], [.num 200, .num (Rat.divInt 13 2)]]⟩

/-- Example directory holding the two example measurement files. -/
def sweepDir : Dir := ⟨"sweep", [⟨"a.csv", .table aDF⟩, ⟨"b.csv", .table bDF⟩]⟩

/-- The example directory with its files enumerated in the other order. -/
def sweepRevDir : Dir :=
  ⟨"sweep", [⟨"b.csv", .table bDF⟩, ⟨"a.csv", .table aDF⟩]⟩

/-- Directory whose first candidate file fails to parse while a later file
is parsable with the required columns. -/
def cex1Dir : Dir :=
  ⟨"sweep", [⟨"bad.csv", .unparsable⟩, ⟨"good.csv", .table aDF⟩]⟩

/-- Parsable table missing the required frequency column. -/
def schemaDF : DF := ⟨["Freq", requiredMag], [[.num 100, .num 3]]⟩

/-- Directory whose single file parses but lacks the frequency column. -/
def schemaDir : Dir := ⟨"d", [⟨"a.csv", .table schemaDF⟩]⟩

/-- Directory holding no csv file at all. -/
def txtDir : Dir := ⟨"data", [⟨"readme.txt", .unparsable⟩]⟩

/-- Table with whitespace-padded headers and a whitespace-padded string
cell. -/
def padDF : DF :=
  ⟨[(" Frequency(Hz) "), (" Magnitude(dB)")], [[.str (" 100 "), .num 3]]⟩

/-- The example directory with a stale aggregate output file present. -/
def staleDir : Dir :=
  ⟨"sweep", sweepDir.files ++ [⟨"sweep.csv", .unparsable⟩]⟩

/-- The table the pipeline writes for the worked example directory. -/
def sweepOut : DF :=
  (groupbyMean (concatDFs (parsedInputs sweepDir))).getD ⟨[], []⟩

/-- The table the pipeline writes for the reversed example directory. -/
def sweepRevOut : DF :=
  (groupbyMean (concatDFs (parsedInputs sweepRevDir))).getD ⟨[], []⟩

/-- A name obtained by appending the csv extension matches the glob. -/
theorem endsWithCSV_append (s : String) : endsWithCSV (s ++ ".csv") = true := by
  unfold endsWithCSV
  rw [List.isSuffixOf_iff_suffix, String.data_append]
  exact List.suffix_append _ _

/-- When the read loop finishes, its result is the accumulator followed by
the cleaned tables of the files that parse. -/
theorem readLoop_eq_parsed :
    ∀ (files : List FSFile) (acc dfs : List DF),
      readLoop files acc = some dfs → dfs = acc ++ parsedTables files := by
  intro files
  induction files with
  | nil =>
    intro acc dfs h
    simp only [readLoop, Option.some.injEq] at h
    simp [parsedTables, ← h]
  | cons f rest ih =>
    intro acc dfs h
    obtain ⟨nm, c⟩ := f
    cases c with
    | table df =>
      simp only [readLoop] at h
      have := ih _ _ h
      simp [parsedTables] at this ⊢
      simp [this, parsedTables]
    | unparsable =>
      simp only [readLoop] at h
      by_cases hacc : acc.isEmpty
      · rw [if_pos hacc] at h; exact absurd h (by simp)
      · rw [if_neg hacc] at h
        have := ih _ _ h
        simp [parsedTables] at this ⊢
        exact this

/-- The read loop over an appended list runs the first part and feeds its
accumulator into the second part. -/
theorem readLoop_append :
    ∀ (xs ys : List FSFile) (acc : List DF),
      readLoop (xs ++ ys) acc = (readLoop xs acc).bind (fun a => readLoop ys a) := by
  intro xs
  induction xs with
  | nil => intro ys acc; rfl
  | cons f rest ih =>
    intro ys acc
    obtain ⟨nm, c⟩ := f
    cases c with
    | table df => simp only [List.cons_append, readLoop]; exact ih ys _
    | unparsable =>
      by_cases hacc : acc.isEmpty
      · simp only [List.cons_append, readLoop, if_pos hacc]; rfl
      · simp only [List.cons_append, readLoop, if_neg hacc]; exact ih ys _

/-- A column present in a header list has an index. -/
theorem idxOf?_isSome_of_mem {c : String} :
    ∀ {cols : List String}, c ∈ cols → (idxOf? c cols).isSome = true := by
  intro cols
  induction cols with
  | nil => intro h; cases h
  | cons x xs ih =>
    intro h
    by_cases hx : x = c
    · simp [idxOf?, hx]
    · rcases List.mem_cons.mp h with h | h
      · exact absurd h.symm hx
      · have := ih h
        simp only [idxOf?, if_neg hx]
        cases ho : idxOf? c xs
        · rw [ho] at this; cases this
        · simp

/-- Reading the mapped header list at the index of a column gives the
function applied to that column. -/
theorem getD_map_idxOf? {β : Type} {c : String} (f : String → β) (y : β) :
    ∀ {cols : List String} {i : Nat},
      idxOf? c cols = some i → (cols.map f).getD i y = f c := by
  intro cols
  induction cols with
  | nil => intro i h; cases h
  | cons x xs ih =>
    intro i h
    by_cases hx : x = c
    · rw [idxOf?, if_pos hx] at h
      cases h
      simp [hx]
    · rw [idxOf?, if_neg hx] at h
      cases ho : idxOf? c xs
      · rw [ho] at h; cases h
      · rw [ho] at h
        injection h with h
        subst h
        simp only [List.map_cons, List.getD_cons_succ]
        exact ih ho

/-- Looking up a column in a row built by mapping over the header list
recovers the mapped value. -/
theorem lookupCell_map (cols : List String) (f : String → Cell) (c : String)
    (h : c ∈ cols) : lookupCell cols c (cols.map f) = f c := by
  unfold lookupCell
  cases ho : idxOf? c cols with
  | none => have := idxOf?_isSome_of_mem h; rw [ho] at this; cases this
  | some i => exact getD_map_idxOf? f Cell.nan ho

/-- The frequency and magnitude pairs of a concatenation are the pairs of
the parts, provided both required columns exist in the combined header. -/
theorem pairsOf_concat (dfs : List DF)
    (hf : requiredFreq ∈ unionCols dfs) (hm : requiredMag ∈ unionCols dfs) :
    pairsOf (concatDFs dfs) = dfs.flatMap pairsOf := by
  unfold pairsOf concatDFs
  rw [List.map_flatMap]
  congr 1
  funext df
  rw [List.map_map]
  apply List.map_congr_left
  intro r _
  simp only [Function.comp_apply, alignRow]
  rw [lookupCell_map _ _ _ hf, lookupCell_map _ _ _ hm]

/-- The first components of the pairs of a table form its frequency
column. -/
theorem map_fst_pairsOf (df : DF) :
    (pairsOf df).map Prod.fst = colValues df requiredFreq := by
  simp [pairsOf, colValues, List.map_map, Function.comp]

/-- A column of any table of a list appears in the union of headers. -/
theorem mem_unionCols_aux (c : String) :
    ∀ (l : List DF) (acc : List String),
      (c ∈ acc ∨ ∃ df ∈ l, c ∈ df.cols) →
      c ∈ l.foldl (fun a df => a ++ df.cols.filter (fun x => decide (x ∉ a))) acc := by
  intro l
  induction l with
  | nil =>
    intro acc h
    rcases h with h | ⟨df, hdf, _⟩
    · exact h
    · cases hdf
  | cons d₀ rest ih =>
    intro acc h
    simp only [List.foldl_cons]
    apply ih
    rcases h with h | ⟨df, hdf, hc⟩
    · exact Or.inl (List.mem_append_left _ h)
    · rcases List.mem_cons.mp hdf with rfl | hdf
      · left
        by_cases ha : c ∈ acc
        · exact List.mem_append_left _ ha
        · exact List.mem_append_right _ (List.mem_filter.mpr ⟨hc, by simpa⟩)
      · exact Or.inr ⟨df, hdf, hc⟩

/-- A column of a member table is a column of the concatenation. -/
theorem mem_unionCols {c : String} {df : DF} {dfs : List DF}
    (hdf : df ∈ dfs) (hc : c ∈ df.cols) : c ∈ unionCols dfs :=
  mem_unionCols_aux c dfs [] (Or.inr ⟨df, hdf, hc⟩)

/-- The aggregation returns a written table exactly when the read loop
finishes with data, the combined header holds both required columns and the
group-by-mean raises on no group. -/
theorem process_ok_some_iff (d : Dir) (out : DF) :
    process_csv_files d = .ok (some out) ↔
      ∃ dfs, readLoop (candidateFiles d) [] = some dfs ∧ dfs ≠ [] ∧
        requiredFreq ∈ (concatDFs dfs).cols ∧ requiredMag ∈ (concatDFs dfs).cols ∧
        groupbyMean (concatDFs dfs) = some out := by
  constructor
  · intro h
    by_cases h1 : (d.files.filter (fun f => endsWithCSV f.name)).isEmpty
    · unfold process_csv_files at h
      rw [if_pos h1] at h
      exact absurd h (by simp)
    · unfold process_csv_files at h
      rw [if_neg h1] at h
      cases hr : readLoop (candidateFiles d) [] with
      | none => rw [hr] at h; exact absurd h (by simp [processRest])
      | some dfs =>
        rw [hr] at h
        simp only [processRest] at h
        by_cases h2 : dfs.isEmpty
        · rw [if_pos h2] at h; exact absurd h (by simp)
        · rw [if_neg h2] at h
          by_cases h3 : requiredFreq ∈ (concatDFs dfs).cols
          · rw [if_pos h3] at h
            by_cases h4 : requiredMag ∈ (concatDFs dfs).cols
            · rw [if_pos h4] at h
              cases hg : groupbyMean (concatDFs dfs) with
              | none => rw [hg] at h; exact absurd h (by simp)
              | some o =>
                rw [hg] at h
                simp only [Except.ok.injEq, Option.some.injEq] at h
                exact ⟨dfs, rfl, by simpa [List.isEmpty_iff] using h2, h3, h4,
                  by rw [hg, h]⟩
            · rw [if_neg h4] at h; exact absurd h (by simp)
          · rw [if_neg h3] at h; exact absurd h (by simp)
  · rintro ⟨dfs, hr, hne, h3, h4, hg⟩
    have hcand : candidateFiles d ≠ [] := by
      intro hc
      rw [hc] at hr
      simp only [readLoop, Option.some.injEq] at hr
      exact hne hr.symm
    have h1 : ¬(d.files.filter (fun f => endsWithCSV f.name)).isEmpty = true := by
      rw [List.isEmpty_iff]
      intro hnil
      apply hcand
      unfold candidateFiles
      rw [hnil]
      rfl
    unfold process_csv_files
    rw [if_neg h1, hr]
    simp only [processRest]
    rw [if_neg (by simp [List.isEmpty_iff, hne]), if_pos h3, if_pos h4, hg]

/-- No file surviving the stale-output filter can carry the aggregate
output file name. -/
theorem any_final_of_filter (l : List FSFile) (s : String) :
    ((l.filter (fun f => decide (f.name ≠ s))).any (fun f => f.name == s)) = false := by
  rw [List.any_eq_false]
  intro f hf
  rw [List.mem_filter] at hf
  simp only [decide_eq_true_eq] at hf
  simp [hf.2]

/-- Membership in the sorted group keys is membership among the non-missing
frequency values. -/
theorem mem_groupKeys {pairs : List (Cell × Cell)} {k : Cell} :
    k ∈ groupKeys pairs ↔ k ≠ Cell.nan ∧ k ∈ pairs.map Prod.fst := by
  unfold groupKeys
  rw [(List.perm_insertionSort cellLEP _).mem_iff, List.mem_dedup, List.mem_filter]
  simp [and_comm]

/-- The grouped table exists exactly when no aggregated group raises, and
then has the two required columns and one key row per sorted key. -/
theorem groupbyPairs_eq_some (pairs : List (Cell × Cell)) (out : DF) :
    groupbyPairs pairs = some out ↔
      aggOk pairs = true ∧
      out = ⟨[requiredFreq, requiredMag],
        (groupKeys pairs).map
          (fun k => [k, (meanAgg (groupMags pairs k)).getD Cell.nan])⟩ := by
  unfold groupbyPairs
  by_cases hok : aggOk pairs
  · rw [if_pos hok]
    simp [hok, eq_comm]
  · rw [if_neg hok]
    simp [hok]

/-- The frequency column of a table of key rows is the key list itself. -/
theorem colValues_keyRows_freq (m : Cell → Cell) (keys : List Cell) :
    colValues ⟨[requiredFreq, requiredMag], keys.map (fun k => [k, m k])⟩
      requiredFreq = keys := by
  unfold colValues
  rw [List.map_map]
  have hpt : ∀ k ∈ keys,
      (lookupCell [requiredFreq, requiredMag] requiredFreq ∘
        fun x => [x, m x]) k = k := by
    intro k _
    simp [lookupCell, idxOf?]
  rw [List.map_congr_left hpt]
  simp

/-- Finding the row of a present key in the grouped rows yields that key
paired with its aggregate. -/
theorem find?_keyRow (m : Cell → Cell) (k : Cell) :
    ∀ (keys : List Cell), k ∈ keys →
      (keys.map (fun x => [x, m x])).find? (fun r => decide (r.getD 0 Cell.nan = k))
        = some [k, m k] := by
  intro keys
  induction keys with
  | nil => intro h; cases h
  | cons x xs ih =>
    intro hk
    by_cases hx : x = k
    · subst hx
      rw [List.map_cons, List.find?_cons_of_pos _ (by simp)]
    · rw [List.map_cons, List.find?_cons_of_neg _ (by simp [hx])]
      rcases List.mem_cons.mp hk with h | h
      · exact absurd h.symm hx
      · exact ih h

/-- The magnitude a table of key rows writes for a present key is the value
the row function assigns to that key. -/
theorem outputMagFor_keyRows (m : Cell → Cell) (keys : List Cell) (k : Cell)
    (hk : k ∈ keys) :
    outputMagFor ⟨[requiredFreq, requiredMag], keys.map (fun x => [x, m x])⟩ k
      = some (m k) := by
  unfold outputMagFor
  rw [find?_keyRow m k _ hk]
  rfl

/-- The aggregate of a nonempty group of numeric magnitudes does not raise
and is their mean rounded to 6 decimals. -/
theorem meanAgg_map_num (ms : List ℚ) (h : ms ≠ []) :
    meanAgg (ms.map Cell.num)
      = some (Cell.num (roundTo6 (ms.sum / (ms.length : ℚ)))) := by
  unfold meanAgg
  rw [if_neg (by simp [isStrCell]), List.filterMap_map]
  have hcomp : (cellNum? ∘ Cell.num) = some := by funext q; rfl
  rw [hcomp, List.filterMap_some, if_neg (by simp [List.isEmpty_iff, h])]

/-- The aggregate of a group free of string values does not raise. -/
theorem meanAgg_isSome_of_noStr (cells : List Cell)
    (h : ∀ c ∈ cells, isStrCell c = false) : (meanAgg cells).isSome = true := by
  unfold meanAgg
  rw [if_neg (by simp [List.any_eq_true]; intro c hc; simp [h c hc])]
  by_cases he : (cells.filterMap cellNum?).isEmpty
  · rw [if_pos he]
    rfl
  · rw [if_neg he]
    rfl

/-- The second components of the pairs of a table form its magnitude
column. -/
theorem map_snd_pairsOf (df : DF) :
    (pairsOf df).map Prod.snd = colValues df requiredMag := by
  simp [pairsOf, colValues, List.map_map, Function.comp]

/-- When no pair carries a string magnitude, the aggregation succeeds on
every group. -/
theorem aggOk_of_noStr (pairs : List (Cell × Cell))
    (h : ∀ p ∈ pairs, isStrCell p.2 = false) : aggOk pairs = true := by
  unfold aggOk
  rw [List.all_eq_true]
  intro k _
  apply meanAgg_isSome_of_noStr
  intro c hc
  unfold groupMags at hc
  obtain ⟨p, hpmem, hpc⟩ := List.mem_map.mp hc
  rw [← hpc]
  exact h p (List.mem_filter.mp hpmem).1

/-- When every magnitude value of every input table is free of strings, so
are the magnitudes of the combined pairs. -/
theorem noStr_pairs_of_inputs (dfs : List DF)
    (hf : requiredFreq ∈ unionCols dfs) (hm : requiredMag ∈ unionCols dfs)
    (h : ∀ u ∈ dfs, ∀ c ∈ colValues u requiredMag, isStrCell c = false) :
    ∀ p ∈ pairsOf (concatDFs dfs), isStrCell p.2 = false := by
  intro p hp
  rw [pairsOf_concat dfs hf hm] at hp
  obtain ⟨u, hu, hpu⟩ := List.mem_flatMap.mp hp
  apply h u hu
  rw [← map_snd_pairsOf]
  exact List.mem_map_of_mem Prod.snd hpu

instance : IsTotal Cell cellLEP := by
  refine ⟨fun a b => ?_⟩
  cases a <;> cases b <;> simp [cellLEP, cellLE] <;> exact le_total _ _

instance : IsTrans Cell cellLEP := by
  refine ⟨fun a b c hab hbc => ?_⟩
  cases a <;> cases b <;> cases c <;> simp_all [cellLEP, cellLE] <;>
    exact le_trans hab hbc

instance : IsAntisymm Cell cellLEP := by
  refine ⟨fun a b hab hba => ?_⟩
  cases a <;> cases b <;>
    simp only [cellLEP, cellLE, decide_eq_true_eq] at hab hba <;>
    first
      | rfl
      | exact (Bool.false_ne_true hab).elim
      | exact (Bool.false_ne_true hba).elim
      | exact congrArg _ (le_antisymm hab hba)

/-- Grouping depends on the pairs only up to permutation. -/
theorem groupbyPairs_perm {p₁ p₂ : List (Cell × Cell)} (h : p₁.Perm p₂) :
    groupbyPairs p₁ = groupbyPairs p₂ := by
  have hkeys : groupKeys p₁ = groupKeys p₂ := by
    unfold groupKeys
    refine List.eq_of_perm_of_sorted ?_ (List.sorted_insertionSort _ _)
      (List.sorted_insertionSort _ _)
    exact (List.perm_insertionSort _ _).trans
      ((((h.map Prod.fst).filter _).dedup).trans (List.perm_insertionSort _ _).symm)
  have hmean : ∀ k, meanAgg (groupMags p₁ k) = meanAgg (groupMags p₂ k) := by
    intro k
    have hperm : (groupMags p₁ k).Perm (groupMags p₂ k) := (h.filter _).map _
    unfold meanAgg
    have hany : (groupMags p₁ k).any isStrCell = (groupMags p₂ k).any isStrCell := by
      rw [Bool.eq_iff_iff, List.any_eq_true, List.any_eq_true]
      constructor
      · rintro ⟨c, hc, hs⟩
        exact ⟨c, hperm.mem_iff.mp hc, hs⟩
      · rintro ⟨c, hc, hs⟩
        exact ⟨c, hperm.mem_iff.mpr hc, hs⟩
    rw [hany]
    by_cases hstr : (groupMags p₂ k).any isStrCell
    · rw [if_pos hstr, if_pos hstr]
    · rw [if_neg hstr, if_neg hstr]
      have hnums := hperm.filterMap cellNum?
      by_cases he : (groupMags p₁ k).filterMap cellNum? = []
      · have he₂ : (groupMags p₂ k).filterMap cellNum? = [] := by
          rw [he] at hnums
          exact (List.perm_nil.mp hnums.symm)
        rw [he, he₂]
      · have he₂ : (groupMags p₂ k).filterMap cellNum? ≠ [] := by
          intro hn
          rw [hn] at hnums
          exact he (List.perm_nil.mp hnums)
        rw [if_neg (by simp [List.isEmpty_iff, he]),
          if_neg (by simp [List.isEmpty_iff, he₂]), hnums.sum_eq, hnums.length_eq]
  have hf₁ : (fun k => (meanAgg (groupMags p₁ k)).isSome)
      = (fun k => (meanAgg (groupMags p₂ k)).isSome) :=
    funext fun k => by rw [hmean k]
  have hf₂ : (fun k => [k, (meanAgg (groupMags p₁ k)).getD Cell.nan])
      = (fun k => [k, (meanAgg (groupMags p₂ k)).getD Cell.nan]) :=
    funext fun k => by rw [hmean k]
  unfold groupbyPairs aggOk
  rw [hkeys, hf₁, hf₂]

/-- A run whose aggregation raises ends with exit code 1, the cleaned
directory and no viewer. -/
theorem mainRun_error (d : Dir) (rb : DF → FileContent) (e : PipelineError)
    (hp : process_csv_files (remove_final_csv d) = .error e) :
    mainRun d rb = ⟨1, (remove_final_csv d).files, none⟩ := by
  unfold mainRun
  rw [hp]

/-- A run whose aggregation returns without writing ends with exit code 0,
the cleaned directory and no viewer. -/
theorem mainRun_ok_none (d : Dir) (rb : DF → FileContent)
    (hp : process_csv_files (remove_final_csv d) = .ok none) :
    mainRun d rb = ⟨0, (remove_final_csv d).files, none⟩ := by
  unfold mainRun
  rw [hp]

/-- A run whose aggregation writes a table ends with exit code 0, the
output file appended and the viewer launched on its re-parsed content. -/
theorem mainRun_ok_some (d : Dir) (rb : DF → FileContent) (df : DF)
    (hp : process_csv_files (remove_final_csv d) = .ok (some df)) :
    mainRun d rb =
      ⟨0, (remove_final_csv d).files ++ [⟨finalCSVName d, rb df⟩],
       some (show_gui (rb df))⟩ := by
  unfold mainRun
  rw [hp]

/-- Claim C1 fails on the code as stated: cex1Dir is a valid directory
holding a parsable csv file with both required columns, yet the run writes
no aggregate output file, because the unparsable file enumerated first
makes the aggregation return early. -/
theorem c1_counterexample :
    (cex1Dir.files.any (fun f =>
        match f.content with
        | .table t => decide (requiredFreq ∈ t.cols ∧ requiredMag ∈ t.cols)
        | .unparsable => false)) = true
    ∧ ((mainRun cex1Dir readBackId).finalFiles.any
        (fun f => f.name == finalCSVName cex1Dir)) = false := by
  constructor
  · decide
  · decide

/-- Claim C1 (amended): whenever the read loop completes, so no parse
failure occurred before the first successful read, some successfully parsed
file holds both required columns, every magnitude value of the successfully
parsed files is numeric or missing (a string value would make the mean
raise and the run end with no output), and no parsed file has duplicate
stripped headers (duplicates would make the grouping raise), the pipeline
writes an output whose frequency values are exactly the distinct
non-missing frequency values across the successfully parsed input files. -/
theorem c1_freq_set_amended (d : Dir) (t : DF) (dfs : List DF)
    (ht : t ∈ parsedInputs d) (hf : requiredFreq ∈ t.cols)
    (hm : requiredMag ∈ t.cols)
    (hr : readLoop (candidateFiles d) [] = some dfs)
    (hnostr : ∀ u ∈ parsedInputs d, ∀ c ∈ colValues u requiredMag,
      isStrCell c = false)
    (_hnodup : ∀ u ∈ parsedInputs d, u.cols.Nodup) :
    ∃ out, process_csv_files d = .ok (some out) ∧
      ∀ k, k ∈ colValues out requiredFreq ↔
        (k ≠ Cell.nan ∧
          k ∈ (parsedInputs d).flatMap (fun u => colValues u requiredFreq)) := by
  have hdfs : dfs = parsedInputs d := by
    simpa [parsedInputs] using readLoop_eq_parsed _ _ _ hr
  subst hdfs
  have hne : parsedInputs d ≠ [] := by
    intro hnil
    rw [hnil] at ht
    cases ht
  have hfc : requiredFreq ∈ (concatDFs (parsedInputs d)).cols := mem_unionCols ht hf
  have hmc : requiredMag ∈ (concatDFs (parsedInputs d)).cols := mem_unionCols ht hm
  have hok : aggOk (pairsOf (concatDFs (parsedInputs d))) = true :=
    aggOk_of_noStr _ (noStr_pairs_of_inputs _ hfc hmc hnostr)
  refine ⟨⟨[requiredFreq, requiredMag],
    (groupKeys (pairsOf (concatDFs (parsedInputs d)))).map
      (fun k => [k, (meanAgg (groupMags (pairsOf (concatDFs (parsedInputs d))) k)).getD
        Cell.nan])⟩, ?_, ?_⟩
  · exact (process_ok_some_iff d _).mpr ⟨parsedInputs d, hr, hne, hfc, hmc,
      (groupbyPairs_eq_some _ _).mpr ⟨hok, rfl⟩⟩
  · intro k
    rw [colValues_keyRows_freq, mem_groupKeys]
    have hflat : (pairsOf (concatDFs (parsedInputs d))).map Prod.fst
        = (parsedInputs d).flatMap (fun u => colValues u requiredFreq) := by
      rw [pairsOf_concat (parsedInputs d) hfc hmc, List.map_flatMap]
      congr 1
      funext u
      exact map_fst_pairsOf u
    rw [hflat]

/-- Witness for claim C1 (amended) at the worked example directory. -/
theorem c1_freq_set_amended_witness :
    ∃ out, process_csv_files sweepDir = .ok (some out) ∧
      ∀ k, k ∈ colValues out requiredFreq ↔
        (k ≠ Cell.nan ∧
          k ∈ (parsedInputs sweepDir).flatMap (fun u => colValues u requiredFreq)) :=
  c1_freq_set_amended sweepDir (cleanDF aDF) (parsedInputs sweepDir)
    (by decide) (by decide) (by decide) rfl (by decide) (by decide)

/-- Claim C2: the magnitude the output writes for a frequency present in
the combined inputs with k numeric magnitudes is the arithmetic mean of
those magnitudes rounded to 6 decimal places. -/
theorem c2_mean_rounded (d : Dir) (out : DF) (k : Cell) (ms : List ℚ)
    (hp : process_csv_files d = .ok (some out))
    (hg : groupMags (combinedPairs d) k = ms.map Cell.num)
    (hne : ms ≠ []) (hk : k ≠ Cell.nan) :
    outputMagFor out k = some (Cell.num (roundTo6 (ms.sum / (ms.length : ℚ)))) := by
  obtain ⟨dfs, hr, hdne, hfc, hmc, hgm⟩ := (process_ok_some_iff d out).mp hp
  have hcp : combinedPairs d = pairsOf (concatDFs dfs) := by
    unfold combinedPairs
    rw [hr]
  rw [hcp] at hg
  obtain ⟨hok, hout⟩ := (groupbyPairs_eq_some _ _).mp hgm
  subst hout
  have hkmem : k ∈ groupKeys (pairsOf (concatDFs dfs)) := by
    rw [mem_groupKeys]
    refine ⟨hk, ?_⟩
    have hgne : groupMags (pairsOf (concatDFs dfs)) k ≠ [] := by
      rw [hg]
      simp [hne]
    have hfilt : (pairsOf (concatDFs dfs)).filter (fun p => decide (p.1 = k)) ≠ [] := by
      intro h0
      apply hgne
      unfold groupMags
      rw [h0]
      rfl
    obtain ⟨p, hpmem⟩ := List.exists_mem_of_ne_nil _ hfilt
    rw [List.mem_filter] at hpmem
    have hp1 : p.1 = k := by simpa using hpmem.2
    exact hp1 ▸ List.mem_map_of_mem Prod.fst hpmem.1
  rw [outputMagFor_keyRows _ _ k hkmem, hg, meanAgg_map_num ms hne]
  rfl

/-- Witness for claim C2: at the worked example, the output magnitude at
frequency 100 is the rounded mean of the two magnitudes 3 and 7/2. -/
theorem c2_mean_rounded_witness :
    outputMagFor sweepOut (Cell.num 100)
      = some (Cell.num (roundTo6
          (([(3 : ℚ), Rat.divInt 7 2].sum) / (([(3 : ℚ), Rat.divInt 7 2].length : ℚ))))) :=
  c2_mean_rounded sweepDir sweepOut
    (Cell.num 100) [(3 : ℚ), Rat.divInt 7 2] rfl (by decide) (by decide) (by decide)

/-- Claim C3: a parse failure while no file has yet succeeded, which can
only happen on the first candidate file, makes the aggregation return
early with no data processed, independently of the remaining files and
with no output written; a parse failure after at least one success is
skipped and the remaining files are processed as if the failing file were
absent. -/
theorem c3_parse_failure_policy :
    (∀ (n : String) (f : FSFile) (rest : List FSFile),
        endsWithCSV f.name = true → f.name ≠ n ++ ".csv" →
        f.content = .unparsable →
        process_csv_files ⟨n, f :: rest⟩ = .ok none)
    ∧ (∀ (n : String) (pre post : List FSFile) (u : FSFile) (dfs : List DF),
        endsWithCSV u.name = true → u.name ≠ n ++ ".csv" →
        u.content = .unparsable →
        readLoop (candidateFiles ⟨n, pre⟩) [] = some dfs → dfs ≠ [] →
        process_csv_files ⟨n, pre ++ u :: post⟩
          = process_csv_files ⟨n, pre ++ post⟩) := by
  constructor
  · intro n f rest hcsv hne hunp
    obtain ⟨nm, c⟩ := f
    simp only at hcsv hne hunp
    subst hunp
    unfold process_csv_files
    have hglob : (List.filter (fun f => endsWithCSV f.name)
        (FSFile.mk nm FileContent.unparsable :: rest)).isEmpty = false := by
      rw [List.filter_cons, if_pos hcsv]
      rfl
    rw [if_neg (by simp [hglob])]
    have hcand : candidateFiles ⟨n, FSFile.mk nm FileContent.unparsable :: rest⟩
        = FSFile.mk nm FileContent.unparsable :: candidateFiles ⟨n, rest⟩ := by
      unfold candidateFiles finalCSVName
      rw [List.filter_cons, if_pos hcsv, List.filter_cons, if_pos (by simpa using hne)]
    rw [hcand]
    rfl
  · intro n pre post u dfs hcsv hne hunp hr hdne
    have hcand₁ : candidateFiles ⟨n, pre ++ u :: post⟩
        = candidateFiles ⟨n, pre⟩ ++ u :: candidateFiles ⟨n, post⟩ := by
      unfold candidateFiles finalCSVName
      rw [List.filter_append, List.filter_cons, if_pos hcsv, List.filter_append,
        List.filter_cons, if_pos (by simpa using hne)]
    have hcand₂ : candidateFiles ⟨n, pre ++ post⟩
        = candidateFiles ⟨n, pre⟩ ++ candidateFiles ⟨n, post⟩ := by
      unfold candidateFiles finalCSVName
      simp only [List.filter_append]
    have hstep : readLoop (u :: candidateFiles ⟨n, post⟩) dfs
        = readLoop (candidateFiles ⟨n, post⟩) dfs := by
      obtain ⟨nm, c⟩ := u
      simp only at hunp
      subst hunp
      simp only [readLoop]
      rw [if_neg (by simp [List.isEmpty_iff, hdne])]
    have hloop : readLoop (candidateFiles ⟨n, pre ++ u :: post⟩) []
        = readLoop (candidateFiles ⟨n, pre ++ post⟩) [] := by
      rw [hcand₁, hcand₂, readLoop_append, readLoop_append, hr]
      exact hstep
    have hg₁ : ¬((pre ++ u :: post).filter (fun f => endsWithCSV f.name)).isEmpty = true := by
      rw [List.isEmpty_iff, List.filter_eq_nil_iff]
      intro hall
      exact absurd (hall u (by simp)) (by simp [hcsv])
    have hcpre : candidateFiles ⟨n, pre⟩ ≠ [] := by
      intro hnil
      rw [hnil] at hr
      simp only [readLoop, Option.some.injEq] at hr
      exact hdne hr.symm
    have hg₂ : ¬((pre ++ post).filter (fun f => endsWithCSV f.name)).isEmpty = true := by
      rw [List.isEmpty_iff, List.filter_eq_nil_iff]
      intro hall
      apply hcpre
      unfold candidateFiles
      have : pre.filter (fun f => endsWithCSV f.name) = [] := by
        rw [List.filter_eq_nil_iff]
        intro a ha
        exact hall a (List.mem_append_left _ ha)
      simp only at this ⊢
      rw [this]
      rfl
    unfold process_csv_files
    rw [if_neg hg₁, if_neg hg₂, hloop]

/-- Witness for claim C3: the early return at an unparsable first file and
the skip of an unparsable file after a success, at concrete directories. -/
theorem c3_parse_failure_policy_witness :
    process_csv_files ⟨"sweep", [⟨"bad.csv", .unparsable⟩, ⟨"good.csv", .table aDF⟩]⟩
      = .ok none
    ∧ process_csv_files
        ⟨"sweep", [⟨"a.csv", .table aDF⟩] ++ ⟨"bad.csv", .unparsable⟩ :: [⟨"b.csv", .table bDF⟩]⟩
      = process_csv_files ⟨"sweep", [⟨"a.csv", .table aDF⟩] ++ [⟨"b.csv", .table bDF⟩]⟩ :=
  ⟨c3_parse_failure_policy.1 ("sweep") ⟨"bad.csv", .unparsable⟩ [⟨"good.csv", .table aDF⟩]
     (by decide) (by decide) rfl,
   c3_parse_failure_policy.2 ("sweep") [⟨"a.csv", .table aDF⟩] [⟨"b.csv", .table bDF⟩]
     ⟨"bad.csv", .unparsable⟩ [cleanDF aDF] (by decide) (by decide) rfl rfl (by decide)⟩

/-- Claim C4: a run on a directory holding a stale aggregate output is the
same run as on the directory with that output removed, because the output
is deleted at run start, so re-running is idempotent and the final output
equals the one of a clean first run; moreover no candidate input file ever
carries the aggregate output name. -/
theorem c4_idempotent_rerun :
    (∀ (d : Dir) (rb : DF → FileContent),
        mainRun d rb = mainRun (remove_final_csv d) rb)
    ∧ (∀ (d : Dir) (f : FSFile), f ∈ candidateFiles d → f.name ≠ finalCSVName d) := by
  constructor
  · intro d rb
    have hidem : remove_final_csv (remove_final_csv d) = remove_final_csv d := by
      unfold remove_final_csv finalCSVName
      congr 1
      rw [List.filter_filter]
      exact List.filter_congr (fun a _ => Bool.and_self _)
    unfold mainRun
    rw [hidem]
    rfl
  · intro d f hf
    have := (List.mem_filter.mp hf).2
    simpa using this

/-- Witness for claim C4 at the example directory with a stale output file
present. -/
theorem c4_idempotent_rerun_witness :
    (mainRun staleDir readBackId = mainRun (remove_final_csv staleDir) readBackId)
    ∧ (⟨"a.csv", .table aDF⟩ : FSFile).name ≠ finalCSVName sweepDir :=
  ⟨c4_idempotent_rerun.1 staleDir readBackId,
   c4_idempotent_rerun.2 sweepDir ⟨"a.csv", .table aDF⟩ (by decide)⟩

/-- Claim C5 fails on the code as stated: in schemaDir the single input
file parses successfully, yet the run ends with no aggregate output file,
because the grouping raises on the missing frequency column. -/
theorem c5_counterexample :
    (parsedInputs (remove_final_csv schemaDir)).length = 1
    ∧ ((mainRun schemaDir readBackId).finalFiles.any
        (fun f => f.name == finalCSVName schemaDir)) = false := by
  constructor
  · decide
  · decide

/-- Claim C5 (amended): provided every magnitude value of the successfully
parsed files is numeric or missing and no parsed file has duplicate
stripped headers, the aggregate output exists at run end exactly when the
read loop completed with at least one successfully parsed file and the
combined table holds both required columns; and when no file was read
successfully during the run there is no output and the viewer is not
launched. -/
theorem c5_output_lifecycle_amended (d : Dir) (rb : DF → FileContent)
    (hnostr : ∀ u ∈ parsedInputs (remove_final_csv d),
      ∀ c ∈ colValues u requiredMag, isStrCell c = false)
    (_hnodup : ∀ u ∈ parsedInputs (remove_final_csv d), u.cols.Nodup) :
    (((mainRun d rb).finalFiles.any (fun f => f.name == finalCSVName d)) = true ↔
      ∃ dfs, readLoop (candidateFiles (remove_final_csv d)) [] = some dfs ∧ dfs ≠ [] ∧
        requiredFreq ∈ (concatDFs dfs).cols ∧ requiredMag ∈ (concatDFs dfs).cols)
    ∧ ((readLoop (candidateFiles (remove_final_csv d)) [] = none ∨
        readLoop (candidateFiles (remove_final_csv d)) [] = some []) →
        (mainRun d rb).viewer = none ∧
        ((mainRun d rb).finalFiles.any (fun f => f.name == finalCSVName d)) = false) := by
  have habsent : ((remove_final_csv d).files.any
      (fun f => f.name == finalCSVName d)) = false :=
    any_final_of_filter d.files (finalCSVName d)
  have hbuild : ∀ dfs, readLoop (candidateFiles (remove_final_csv d)) [] = some dfs →
      dfs ≠ [] → requiredFreq ∈ (concatDFs dfs).cols →
      requiredMag ∈ (concatDFs dfs).cols →
      ∃ out, process_csv_files (remove_final_csv d) = .ok (some out) := by
    intro dfs hr hdne hfc hmc
    have hdfs : dfs = parsedInputs (remove_final_csv d) := by
      simpa [parsedInputs] using readLoop_eq_parsed _ _ _ hr
    have hok : aggOk (pairsOf (concatDFs dfs)) = true := by
      apply aggOk_of_noStr
      apply noStr_pairs_of_inputs _ hfc hmc
      rw [hdfs]
      exact hnostr
    exact ⟨_, (process_ok_some_iff (remove_final_csv d) _).mpr
      ⟨dfs, hr, hdne, hfc, hmc, (groupbyPairs_eq_some _ _).mpr ⟨hok, rfl⟩⟩⟩
  cases hp : process_csv_files (remove_final_csv d) with
  | error e =>
    rw [mainRun_error d rb e hp]
    constructor
    · constructor
      · intro habs
        rw [habsent] at habs
        cases habs
      · rintro ⟨dfs, hr, hdne, hfc, hmc⟩
        obtain ⟨out, hout⟩ := hbuild dfs hr hdne hfc hmc
        rw [hp] at hout
        cases hout
    · intro _
      exact ⟨rfl, habsent⟩
  | ok o =>
    cases o with
    | none =>
      rw [mainRun_ok_none d rb hp]
      constructor
      · constructor
        · intro habs
          rw [habsent] at habs
          cases habs
        · rintro ⟨dfs, hr, hdne, hfc, hmc⟩
          obtain ⟨out, hout⟩ := hbuild dfs hr hdne hfc hmc
          rw [hp] at hout
          cases hout
      · intro _
        exact ⟨rfl, habsent⟩
    | some df =>
      rw [mainRun_ok_some d rb df hp]
      obtain ⟨dfs, hr, hdne, hfc, hmc, _⟩ :=
        (process_ok_some_iff (remove_final_csv d) df).mp hp
      constructor
      · constructor
        · intro _
          exact ⟨dfs, hr, hdne, hfc, hmc⟩
        · intro _
          rw [List.any_append, habsent]
          simp
      · rintro (habs | habs)
        · rw [habs] at hr
          cases hr
        · rw [habs] at hr
          injection hr with hr
          exact absurd hr.symm hdne

/-- Witness for claim C5 (amended) at the worked example directory. -/
theorem c5_output_lifecycle_amended_witness :
    (((mainRun sweepDir readBackId).finalFiles.any
        (fun f => f.name == finalCSVName sweepDir)) = true ↔
      ∃ dfs, readLoop (candidateFiles (remove_final_csv sweepDir)) [] = some dfs ∧
        dfs ≠ [] ∧ requiredFreq ∈ (concatDFs dfs).cols ∧
        requiredMag ∈ (concatDFs dfs).cols)
    ∧ ((readLoop (candidateFiles (remove_final_csv sweepDir)) [] = none ∨
        readLoop (candidateFiles (remove_final_csv sweepDir)) [] = some []) →
        (mainRun sweepDir readBackId).viewer = none ∧
        ((mainRun sweepDir readBackId).finalFiles.any
          (fun f => f.name == finalCSVName sweepDir)) = false) :=
  c5_output_lifecycle_amended sweepDir readBackId (by decide) (by decide)

/-- Claim C6: a run on a directory holding no csv file at all exits with
code 1, leaves the directory contents untouched and launches no viewer. -/
theorem c6_no_csv_exit1 (d : Dir) (rb : DF → FileContent)
    (h : d.files.filter (fun f => endsWithCSV f.name) = []) :
    mainRun d rb = ⟨1, d.files, none⟩ := by
  have hkeep : d.files.filter (fun f => decide (f.name ≠ finalCSVName d)) = d.files := by
    rw [List.filter_eq_self]
    intro f hf
    simp only [decide_eq_true_eq]
    intro hname
    have hends : endsWithCSV f.name = true := by
      rw [hname]
      exact endsWithCSV_append d.name
    exact absurd hends (List.filter_eq_nil_iff.mp h f hf)
  have hremove : remove_final_csv d = d := by
    unfold remove_final_csv
    rw [hkeep]
  have hp : process_csv_files (remove_final_csv d) = .error .noCSVFiles := by
    rw [hremove]
    unfold process_csv_files
    rw [if_pos (by rw [h]; rfl)]
  rw [mainRun_error d rb _ hp, hremove]

/-- Witness for claim C6 at a directory holding a single text file. -/
theorem c6_no_csv_exit1_witness :
    mainRun txtDir readBackId = ⟨1, txtDir.files, none⟩ :=
  c6_no_csv_exit1 txtDir readBackId (by decide)

/-- Claim C7: every successfully parsed file has whitespace stripped from
every column header and from every string cell, other cells are untouched,
the read loop applies exactly this cleaning, and every written output has
column names exactly the two required ones. -/
theorem c7_whitespace_normalisation :
    (∀ df : DF, (cleanDF df).cols = df.cols.map pyStrip)
    ∧ (∀ df : DF, (cleanDF df).rows = df.rows.map (List.map cleanCell))
    ∧ (∀ s : String, cleanCell (.str s) = .str (pyStrip s))
    ∧ (∀ q : ℚ, cleanCell (.num q) = .num q)
    ∧ (cleanCell .nan = .nan)
    ∧ (∀ (nm : String) (df : DF) (rest : List FSFile) (acc : List DF),
        readLoop (⟨nm, .table df⟩ :: rest) acc = readLoop rest (acc ++ [cleanDF df]))
    ∧ (∀ (d : Dir) (out : DF), process_csv_files d = .ok (some out) →
        out.cols = [requiredFreq, requiredMag]) := by
  refine ⟨fun df => rfl, fun df => rfl, fun s => rfl, fun q => rfl, rfl,
    fun nm df rest acc => rfl, ?_⟩
  intro d out hp
  obtain ⟨dfs, _, _, _, _, hgm⟩ := (process_ok_some_iff d out).mp hp
  obtain ⟨_, hout⟩ := (groupbyPairs_eq_some _ _).mp hgm
  rw [hout]

/-- Witness for claim C7: the padded-header table is normalised and the
worked example output has exactly the required column names. -/
theorem c7_whitespace_normalisation_witness :
    (cleanDF padDF).cols = padDF.cols.map pyStrip
    ∧ (cleanDF padDF).rows = padDF.rows.map (List.map cleanCell)
    ∧ sweepOut.cols = [requiredFreq, requiredMag] :=
  ⟨c7_whitespace_normalisation.1 padDF,
   c7_whitespace_normalisation.2.1 padDF,
   c7_whitespace_normalisation.2.2.2.2.2.2 sweepDir sweepOut rfl⟩

/-- Claim C8: when the read loop completes with data but a required column
is missing from the combined table, the aggregation raises a missing-column
error, the run exits with code 1 and no output file is present. -/
theorem c8_missing_column_aborts (d : Dir) (rb : DF → FileContent) (dfs : List DF)
    (hr : readLoop (candidateFiles (remove_final_csv d)) [] = some dfs)
    (hdne : dfs ≠ [])
    (hmiss : ¬(requiredFreq ∈ (concatDFs dfs).cols ∧
      requiredMag ∈ (concatDFs dfs).cols)) :
    (∃ c, process_csv_files (remove_final_csv d) = .error (.missingColumn c))
    ∧ (mainRun d rb).exitCode = 1
    ∧ ((mainRun d rb).finalFiles.any (fun f => f.name == finalCSVName d)) = false := by
  have hglob : ¬((remove_final_csv d).files.filter
      (fun f => endsWithCSV f.name)).isEmpty = true := by
    rw [List.isEmpty_iff]
    intro hnil
    have hcnil : candidateFiles (remove_final_csv d) = [] := by
      unfold candidateFiles
      rw [hnil]
      rfl
    rw [hcnil] at hr
    simp only [readLoop, Option.some.injEq] at hr
    exact hdne hr.symm
  have herr : ∃ c, process_csv_files (remove_final_csv d)
      = .error (.missingColumn c) := by
    unfold process_csv_files
    rw [if_neg hglob, hr]
    simp only [processRest]
    rw [if_neg (by simp [List.isEmpty_iff, hdne])]
    by_cases h3 : requiredFreq ∈ (concatDFs dfs).cols
    · rw [if_pos h3, if_neg (fun h4 => hmiss ⟨h3, h4⟩)]
      exact ⟨requiredMag, rfl⟩
    · rw [if_neg h3]
      exact ⟨requiredFreq, rfl⟩
  obtain ⟨c, hc⟩ := herr
  refine ⟨⟨c, hc⟩, ?_, ?_⟩
  · rw [mainRun_error d rb _ hc]
  · rw [mainRun_error d rb _ hc]
    exact any_final_of_filter d.files (finalCSVName d)

/-- Witness for claim C8 at the directory whose single parsed file lacks
the frequency column. -/
theorem c8_missing_column_aborts_witness :
    (∃ c, process_csv_files (remove_final_csv schemaDir)
      = .error (.missingColumn c))
    ∧ (mainRun schemaDir readBackId).exitCode = 1
    ∧ ((mainRun schemaDir readBackId).finalFiles.any
        (fun f => f.name == finalCSVName schemaDir)) = false :=
  c8_missing_column_aborts schemaDir readBackId [cleanDF schemaDF]
    (by decide) (by decide) (by decide)

/-- Claim C9: the viewer on a readable table missing a required column
reports the missing columns and performs no rendering, returning to the
caller; and a run reaching the viewer keeps exit code 0 even when the
viewer reports missing columns, so the failure is soft. -/
theorem c9_viewer_missing_columns :
    (∀ df : DF, ¬(requiredFreq ∈ df.cols ∧ requiredMag ∈ df.cols) →
        show_gui (.table df) = .missingColumns)
    ∧ (∃ (d : Dir) (rb : DF → FileContent),
        (mainRun d rb).viewer = some .missingColumns ∧
        (mainRun d rb).exitCode = 0) := by
  constructor
  · intro df h
    simp only [show_gui]
    rw [if_neg h]
  · refine ⟨sweepDir, fun _ => .table ⟨[], []⟩, ?_, ?_⟩
    · rw [mainRun_ok_some sweepDir _ _ rfl]
      decide
    · rw [mainRun_ok_some sweepDir _ _ rfl]

/-- Witness for claim C9 at a table with no columns at all. -/
theorem c9_viewer_missing_columns_witness :
    show_gui (.table ⟨[], []⟩) = .missingColumns :=
  c9_viewer_missing_columns.1 ⟨[], []⟩ (by decide)

/-- Claim C10: every written output has its rows sorted ascending in the
frequency key under the total cell order, which on numeric keys is the
numeric order, and the output is determined by the multiset of combined
frequency and magnitude pairs, independently of enumeration order. -/
theorem c10_sorted_deterministic :
    (∀ (d : Dir) (out : DF), process_csv_files d = .ok (some out) →
        List.Pairwise cellLEP (colValues out requiredFreq))
    ∧ (∀ a b : ℚ, cellLEP (.num a) (.num b) ↔ a ≤ b)
    ∧ (∀ (d₁ d₂ : Dir) (o₁ o₂ : DF),
        process_csv_files d₁ = .ok (some o₁) →
        process_csv_files d₂ = .ok (some o₂) →
        (combinedPairs d₁).Perm (combinedPairs d₂) → o₁ = o₂) := by
  refine ⟨?_, ?_, ?_⟩
  · intro d out hp
    obtain ⟨dfs, hr, _, _, _, hgm⟩ := (process_ok_some_iff d out).mp hp
    obtain ⟨_, hout⟩ := (groupbyPairs_eq_some _ _).mp hgm
    subst hout
    rw [colValues_keyRows_freq]
    exact List.sorted_insertionSort cellLEP _
  · intro a b
    simp [cellLEP, cellLE]
  · intro d₁ d₂ o₁ o₂ h₁ h₂ hperm
    obtain ⟨dfs₁, hr₁, _, _, _, hgm₁⟩ := (process_ok_some_iff d₁ o₁).mp h₁
    obtain ⟨dfs₂, hr₂, _, _, _, hgm₂⟩ := (process_ok_some_iff d₂ o₂).mp h₂
    have hc₁ : combinedPairs d₁ = pairsOf (concatDFs dfs₁) := by
      unfold combinedPairs
      rw [hr₁]
    have hc₂ : combinedPairs d₂ = pairsOf (concatDFs dfs₂) := by
      unfold combinedPairs
      rw [hr₂]
    rw [hc₁, hc₂] at hperm
    have heq : groupbyMean (concatDFs dfs₁) = groupbyMean (concatDFs dfs₂) :=
      groupbyPairs_perm hperm
    rw [hgm₁, hgm₂] at heq
    injection heq

/-- Witness for claim C10: the worked example output is sorted, the numeric
order fact at 1 and 2, and the reversed enumeration yields the same
output. -/
theorem c10_sorted_deterministic_witness :
    List.Pairwise cellLEP (colValues sweepOut requiredFreq)
    ∧ (cellLEP (Cell.num 1) (Cell.num 2) ↔ (1 : ℚ) ≤ 2)
    ∧ sweepOut = sweepRevOut :=
  ⟨c10_sorted_deterministic.1 sweepDir sweepOut rfl,
   c10_sorted_deterministic.2.1 1 2,
   c10_sorted_deterministic.2.2 sweepDir sweepRevDir sweepOut sweepRevOut
     rfl rfl (by decide)⟩

end Avg
